import Mathlib

/-
Verification of the reaction-diffusion notebook:
a shallow embedding of the numerical core (reaction kernel, periodic
five-point Laplacian builder, step-size policy, driver loop) over exact
rational arithmetic, together with theorems settling the specification
claims about it.
-/

namespace RD

/- ===================== Reaction kernel ===================== -/

/-- Reaction term from the source:
return alpha*u*(1-tau1*v**2) + v*(1-tau2*u).
The global parameters of the notebook are passed explicitly. -/
def f (alpha tau1 tau2 : ℚ) (u v : ℚ) : ℚ :=
  alpha*u*(1 - tau1*v^2) + v*(1 - tau2*u)

/-- Reaction term from the source:
return beta*v*(1+alpha*tau1/beta*u*v) + u*(gamma+tau2*v).
The body evaluates the scalar division alpha*tau1/beta, which raises
ZeroDivisionError in the source when beta = 0 (g_run below is the fallible
embedding); this value-level form, written with total division, is the
value the source returns on the non-error path beta /= 0. -/
def g (alpha beta gamma tau1 tau2 : ℚ) (u v : ℚ) : ℚ :=
  beta*v*(1 + alpha*tau1/beta*u*v) + u*(gamma + tau2*v)

/-- Running the source's g as a fallible call: the scalar division
alpha*tau1/beta is evaluated before any multiplication by v can absorb it,
so for beta = 0 every call raises ZeroDivisionError; for beta /= 0 the call
returns the value of g. -/
def g_run (alpha beta gamma tau1 tau2 : ℚ) (u v : ℚ) : Except String ℚ :=
  if beta = 0 then Except.error "ZeroDivisionError: float division by zero"
  else Except.ok (g alpha beta gamma tau1 tau2 u v)

/-- Modelled from the spec: the additive form of the second reaction term,
beta*v + alpha*tau1*u*v^2 + u*(gamma + tau2*v), used for the
refinement claim comparing it with the source's factored form. -/
def g_additive (alpha beta gamma tau1 tau2 : ℚ) (u v : ℚ) : ℚ :=
  beta*v + alpha*tau1*u*v^2 + u*(gamma + tau2*v)

/- ===================== Laplacian builder ===================== -/

/-- The mask vector from the source, e2 = ([1]*(m-1)+[0])*m, read at
position c: it is 1 unless c is the last position of its block of m. -/
def e2 (m c : ℕ) : ℚ := if c % m = m - 1 then 0 else 1

/-- The mask vector from the source, e3 = ([0]+[1]*(m-1))*m, read at
position c: it is 1 unless c is the first position of its block of m. -/
def e3 (m c : ℕ) : ℚ := if c % m = 0 then 0 else 1

/-- The banded part of the builder,
spdiags([-4*e,e2,e3,e,e],[0,-1,1,-m,m],m**2,m**2).
Following the spdiags convention, the entry at (r,c) on diagonal d = c - r
takes the data value at index c. -/
def A_banded (m r c : ℕ) : ℚ :=
  (if c = r then -4 else 0)
  + (if c + 1 = r then e2 m c else 0)
  + (if c = r + 1 then e3 m c else 0)
  + (if c + m = r then 1 else 0)
  + (if c = r + m then 1 else 0)

/-- The top/bottom periodic correction of the builder,
spdiags([e,e],[m-m**2,m**2-m],m**2,m**2), before the left/right
corrections are written into it. -/
def A_periodic_bands (m r c : ℕ) : ℚ :=
  (if r = c + (m^2 - m) then 1 else 0) + (if c = r + (m^2 - m) then 1 else 0)

/-- Writing a single entry of a (lil) matrix: later writes shadow earlier
ones at the same position. -/
def lil_set (A : ℕ → ℕ → ℚ) (r0 c0 : ℕ) (v : ℚ) : ℕ → ℕ → ℚ :=
  fun r c => if r = r0 ∧ c = c0 then v else A r c

/-- The left/right periodic corrections of the builder, the loop
for i in range(n): A_periodic[i*m,(i+1)*m-1] = 1.; A_periodic[(i+1)*m-1,i*m] = 1. -/
def add_lr_bcs (m : ℕ) (A : ℕ → ℕ → ℚ) : ℕ → (ℕ → ℕ → ℚ)
  | 0 => A
  | n+1 => lil_set (lil_set (add_lr_bcs m A n) (n*m) ((n+1)*m - 1) 1) ((n+1)*m - 1) (n*m) 1

/-- The full periodic-correction matrix A_periodic of the source, with the
loop run for i in range(m). -/
def A_periodic (m : ℕ) : ℕ → ℕ → ℚ :=
  add_lr_bcs m (A_periodic_bands m) m

/-- The grid spacing computed inside the builder: h = (b-a)/(m+1). -/
def lap_h (m : ℕ) (a b : ℚ) : ℚ := (b - a) / ((m : ℚ) + 1)

/-- Transcription of five_pt_laplacian_sparse_periodic(m,a,b): the banded
part plus the periodic corrections, divided entrywise by h**2, as an
m^2 x m^2 matrix (entries outside the matrix are 0). -/
def five_pt_laplacian_sparse_periodic (m : ℕ) (a b : ℚ) : ℕ → ℕ → ℚ :=
  fun r c =>
    if r < m^2 ∧ c < m^2 then (A_banded m r c + A_periodic m r c) / (lap_h m a b)^2
    else 0

/-- Sparse matrix-vector product of an m^2 x m^2 operator with a flattened
grid vector, at row r. -/
def matvec (m : ℕ) (A : ℕ → ℕ → ℚ) (x : ℕ → ℚ) (r : ℕ) : ℚ :=
  ∑ c in Finset.range (m^2), A r c * x c

/-- Row-major flattening of an m x m grid, matching u.reshape(-1):
the flattened entry at index c is the grid value at (c / m, c % m). -/
def flatten (m : ℕ) (U : ℕ → ℕ → ℚ) : ℕ → ℚ :=
  fun c => U (c / m) (c % m)

/-- Flattened unit impulse at grid cell (0,0). -/
def e00 : ℕ → ℚ := fun c => if c = 0 then 1 else 0

/-- Running the builder as a fallible call. For m < 2 the offset list
[0,-1,1,-m,m] of the first spdiags call contains duplicates and scipy's
dia_matrix constructor raises ValueError, so the call fails. For m >= 2
all five offsets are distinct and no operation raises: in particular for
a = b the entrywise division by h**2 = 0 produces non-finite entries with
a runtime warning, not an exception (the value-level matrix holds junk
entries there, division by zero being total in the rational model), and a
matrix is returned. The source performs no input validation of its own. -/
def five_pt_laplacian_run (m : ℕ) (a b : ℚ) : Except String (ℕ → ℕ → ℚ) :=
  if m < 2 then Except.error "ValueError: offset array contains duplicate values"
  else Except.ok (five_pt_laplacian_sparse_periodic m a b)

/- ===================== Time stepper and driver ===================== -/

/-- Transcription of one_step(u,v,k,A,delta,D1=0.5,D2=1.0): both versions
in the source consist only of `return u_new, v_new` with the names
u_new, v_new never bound, so every call raises NameError. -/
def one_step (u v : ℕ → ℚ) (k : ℚ) (A : ℕ → ℕ → ℚ)
    (delta : ℚ) (D1 : ℚ := 1/2) (D2 : ℚ := 1) :
    Except String ((ℕ → ℚ) × (ℕ → ℚ)) :=
  Except.error "NameError: global name u_new is not defined"

/-- First step-size policy of the source (explicit scheme):
return h**2/(5.*delta). -/
def step_size (h delta : ℚ) : ℚ := h^2/(5*delta)

/-- Second step-size policy of the source (IMEX scheme), which redefines
step_size later in the notebook: return h/(10.*delta). -/
def step_size2 (h delta : ℚ) : ℚ := h/(10*delta)

/-- Python 2 rounding to the nearest integer, halves away from zero,
composed with int(): int(round(x)). -/
def pyRound (x : ℚ) : ℤ :=
  if 0 ≤ x then ⌊x + 1/2⌋ else -⌊-x + 1/2⌋

/-- The driver's stepping loop, for j in range(N): u,v = one_step(u,v,k,A,delta);
a raised error aborts the loop immediately. Snapshot emission does not
modify u, v and is omitted. -/
def pf_loop (k : ℚ) (A : ℕ → ℕ → ℚ) (delta : ℚ) :
    ℕ → (ℕ → ℚ) × (ℕ → ℚ) → Except String ((ℕ → ℚ) × (ℕ → ℚ))
  | 0, s => Except.ok s
  | n+1, s =>
    match one_step s.1 s.2 k A delta (1/2) 1 with
    | Except.error e => Except.error e
    | Except.ok s' => pf_loop k A delta n s'

/-- Transcription of the numerical core of pattern_formation(m,T): grid
spacing h=(b-a)/m on [-1,1], the operator built once, k = step_size(h,delta),
N = int(round(T/k)) steps of the loop. The random initial fields are the
explicit inputs u0, v0; plotting is omitted. -/
def pattern_formation (m : ℕ) (T delta : ℚ) (u0 v0 : ℕ → ℚ) :
    Except String ((ℕ → ℚ) × (ℕ → ℚ)) :=
  let h : ℚ := (1 - (-1))/(m : ℚ)
  let A := five_pt_laplacian_sparse_periodic m (-1) 1
  let k := step_size h delta
  let N := pyRound (T / k)
  pf_loop k A delta N.toNat (u0, v0)

/- ===================== Index arithmetic helpers ===================== -/

theorem idx_inj {m i j p q : ℕ} (hj : j < m) (hq : q < m)
    (h : i*m + j = p*m + q) : i = p ∧ j = q := by
  have hm : 0 < m := lt_of_le_of_lt (Nat.zero_le j) hj
  have h1 : (i*m + j) % m = (p*m + q) % m := by rw [h]
  rw [mul_comm i m, mul_comm p m] at h h1
  rw [Nat.mul_add_mod, Nat.mul_add_mod, Nat.mod_eq_of_lt hj, Nat.mod_eq_of_lt hq] at h1
  subst h1
  have h2 : m*i = m*p := Nat.add_right_cancel h
  exact ⟨Nat.eq_of_mul_eq_mul_left hm h2, rfl⟩

theorem idx_lt {m i j : ℕ} (hi : i < m) (hj : j < m) : i*m + j < m^2 := by
  have h1 : i*m + j < (i+1)*m := by
    rw [add_mul, one_mul]; exact Nat.add_lt_add_left hj _
  rw [pow_two]
  exact lt_of_lt_of_le h1 (Nat.mul_le_mul_right m hi)

theorem sq_split {m r : ℕ} (hr : r < m^2) :
    r/m < m ∧ r % m < m ∧ (r/m)*m + r % m = r := by
  have hm : 0 < m := by
    rcases Nat.eq_zero_or_pos m with h | h
    · subst h; simp at hr
    · exact h
  refine ⟨?_, Nat.mod_lt _ hm, ?_⟩
  · rw [Nat.div_lt_iff_lt_mul hm]
    rw [pow_two] at hr; exact hr
  · rw [mul_comm]; exact Nat.div_add_mod r m

theorem flatten_idx {m p q : ℕ} (hq : q < m) (U : ℕ → ℕ → ℚ) :
    flatten m U (p*m + q) = U p q := by
  have hm : 0 < m := lt_of_le_of_lt (Nat.zero_le q) hq
  unfold flatten
  congr 1
  · rw [mul_comm p m, Nat.mul_add_div hm, Nat.div_eq_of_lt hq, add_zero]
  · rw [mul_comm p m, Nat.mul_add_mod, Nat.mod_eq_of_lt hq]

theorem msq_sub (m : ℕ) : m^2 - m = (m-1)*m := by
  rw [pow_two, tsub_mul, one_mul]

/- ===================== Grid form of the builder's parts ===================== -/

theorem e2_grid {m q : ℕ} (hq : q < m) (p : ℕ) :
    e2 m (p*m + q) = if q = m - 1 then 0 else 1 := by
  unfold e2; rw [mul_comm p m, Nat.mul_add_mod, Nat.mod_eq_of_lt hq]

theorem e3_grid {m q : ℕ} (hq : q < m) (p : ℕ) :
    e3 m (p*m + q) = if q = 0 then 0 else 1 := by
  unfold e3; rw [mul_comm p m, Nat.mul_add_mod, Nat.mod_eq_of_lt hq]

theorem idx_if_eq {m a b2 p q : ℕ} (hb : b2 < m) (hq : q < m) (v : ℚ) :
    (if p*m + q = a*m + b2 then v else 0) = if p = a ∧ q = b2 then v else 0 := by
  by_cases h : p*m + q = a*m + b2
  · obtain ⟨e1, e2⟩ := idx_inj hq hb h
    rw [if_pos h, if_pos ⟨e1, e2⟩]
  · rw [if_neg h, if_neg]
    rintro ⟨rfl, rfl⟩; exact h rfl

theorem idx_if_eq' {m a b2 p q : ℕ} (hb : b2 < m) (hq : q < m) (v : ℚ) :
    (if a*m + b2 = p*m + q then v else 0) = if p = a ∧ q = b2 then v else 0 := by
  by_cases h : a*m + b2 = p*m + q
  · obtain ⟨e1, e2⟩ := idx_inj (m := m) hb hq h
    rw [if_pos h, if_pos (show p = a ∧ q = b2 from ⟨e1.symm, e2.symm⟩)]
  · rw [if_neg h, if_neg]
    rintro ⟨rfl, rfl⟩; exact h rfl

theorem succ_idx_iff {m i j p q : ℕ} (hj : j < m) (hq : q < m) :
    (p*m + q + 1 = i*m + j) ↔ ((p = i ∧ j = q+1) ∨ (i = p+1 ∧ j = 0 ∧ q+1 = m)) := by
  constructor
  · intro hc
    have hc' : p*m + (q+1) = i*m + j := by rw [← add_assoc]; exact hc
    rcases Nat.lt_or_ge (q+1) m with h | h
    · obtain ⟨e1, e2⟩ := idx_inj (m := m) (i := p) (j := q+1) (p := i) (q := j) h hj hc'
      exact Or.inl ⟨e1, e2.symm⟩
    · have hq1 : q + 1 = m := le_antisymm (Nat.succ_le_of_lt hq) h
      have hm : 0 < m := lt_of_le_of_lt (Nat.zero_le j) hj
      have he : (p+1)*m + 0 = p*m + (q+1) := by
        rw [add_mul, one_mul, add_zero, hq1]
      have hc'' : (p+1)*m + 0 = i*m + j := he.trans hc'
      obtain ⟨e1, e2⟩ := idx_inj (m := m) (i := p+1) (j := 0) (p := i) (q := j) hm hj hc''
      exact Or.inr ⟨e1.symm, e2.symm, hq1⟩
  · rintro (⟨rfl, rfl⟩ | ⟨rfl, rfl, hq1⟩)
    · rw [add_assoc]
    · rw [add_mul, one_mul, add_zero, add_assoc, hq1]

theorem A_banded_grid {m i j p q : ℕ} (hj : j < m) (hq : q < m) :
    A_banded m (i*m+j) (p*m+q) =
      (if p = i ∧ q = j then (-4:ℚ) else 0)
    + (if p = i ∧ j = q+1 then 1 else 0)
    + (if p = i ∧ q = j+1 then 1 else 0)
    + (if p+1 = i ∧ q = j then 1 else 0)
    + (if p = i+1 ∧ q = j then 1 else 0) := by
  unfold A_banded
  have h1 : (if (p*m+q : ℕ) = i*m+j then (-4:ℚ) else 0) = if p = i ∧ q = j then -4 else 0 :=
    idx_if_eq hj hq (-4)
  have h2 : (if p*m+q+1 = i*m+j then e2 m (p*m+q) else 0) = if p = i ∧ j = q+1 then 1 else 0 := by
    rw [e2_grid hq]
    by_cases h : p*m+q+1 = i*m+j
    · rcases (succ_idx_iff hj hq).mp h with ⟨he1, he2⟩ | ⟨he1, he2, he3⟩
      · rw [if_pos h, if_neg (show ¬q = m-1 by omega), if_pos (show p = i ∧ j = q+1 from ⟨he1, he2⟩)]
      · rw [if_pos h, if_pos (show q = m-1 by omega), if_neg (show ¬(p = i ∧ j = q+1) by omega)]
    · rw [if_neg h, if_neg]
      rintro ⟨rfl, rfl⟩
      exact h (by rw [add_assoc])
  have h3 : (if p*m+q = i*m+j+1 then e3 m (p*m+q) else 0) = if p = i ∧ q = j+1 then 1 else 0 := by
    rw [e3_grid hq]
    by_cases h : p*m+q = i*m+j+1
    · rcases (succ_idx_iff hq hj).mp h.symm with ⟨he1, he2⟩ | ⟨he1, he2, he3⟩
      · rw [if_pos h, if_neg (show ¬q = 0 by omega), if_pos (show p = i ∧ q = j+1 from ⟨he1.symm, he2⟩)]
      · rw [if_pos h, if_pos (show q = 0 by omega), if_neg (show ¬(p = i ∧ q = j+1) by omega)]
    · rw [if_neg h, if_neg]
      rintro ⟨rfl, rfl⟩
      exact h (by rw [add_assoc])
  have h4 : (if p*m+q+m = i*m+j then (1:ℚ) else 0) = if p+1 = i ∧ q = j then 1 else 0 := by
    rw [show p*m+q+m = (p+1)*m+q from by ring]
    exact idx_if_eq hj hq 1
  have h5 : (if p*m+q = i*m+j+m then (1:ℚ) else 0) = if p = i+1 ∧ q = j then 1 else 0 := by
    rw [show i*m+j+m = (i+1)*m+j from by ring]
    exact idx_if_eq hj hq 1
  rw [h1, h2, h3, h4, h5]

theorem A_periodic_bands_grid {m i j p q : ℕ} (hj : j < m) (hq : q < m) :
    A_periodic_bands m (i*m+j) (p*m+q) =
      (if p + (m-1) = i ∧ q = j then (1:ℚ) else 0)
    + (if i + (m-1) = p ∧ q = j then 1 else 0) := by
  unfold A_periodic_bands
  have h1 : (if (i*m+j : ℕ) = p*m+q + (m^2 - m) then (1:ℚ) else 0)
      = if p + (m-1) = i ∧ q = j then 1 else 0 := by
    rw [show p*m+q + (m^2-m) = (p+(m-1))*m + q from by rw [msq_sub]; ring]
    by_cases h : i*m+j = (p+(m-1))*m + q
    · obtain ⟨e1, e2⟩ := idx_inj (m := m) hj hq h
      rw [if_pos h, if_pos (show p + (m-1) = i ∧ q = j from ⟨e1.symm, e2.symm⟩)]
    · rw [if_neg h, if_neg]
      rintro ⟨rfl, rfl⟩; exact h rfl
  have h2 : (if (p*m+q : ℕ) = i*m+j + (m^2 - m) then (1:ℚ) else 0)
      = if i + (m-1) = p ∧ q = j then 1 else 0 := by
    rw [show i*m+j + (m^2-m) = (i+(m-1))*m + j from by rw [msq_sub]; ring]
    by_cases h : p*m+q = (i+(m-1))*m + j
    · obtain ⟨e1, e2⟩ := idx_inj (m := m) hq hj h
      rw [if_pos h, if_pos (show i + (m-1) = p ∧ q = j from ⟨e1.symm, e2⟩)]
    · rw [if_neg h, if_neg]
      rintro ⟨rfl, rfl⟩; exact h rfl
  rw [h1, h2]

theorem tm_pred {t m : ℕ} (hm : 1 ≤ m) : (t+1)*m - 1 = t*m + (m-1) := by
  have h : (t+1)*m = t*m + m := by ring
  omega

theorem lr_cond1 {m i j p q : ℕ} (hi : i < m) (hj : j < m) (hq : q < m) :
    (∃ t, t < m ∧ i*m+j = t*m ∧ p*m+q = (t+1)*m - 1) ↔ (j = 0 ∧ p = i ∧ q = m-1) := by
  have hm : 0 < m := lt_of_le_of_lt (Nat.zero_le j) hj
  constructor
  · rintro ⟨t, ht, h1, h2⟩
    have h1' : i*m + j = t*m + 0 := by rw [add_zero]; exact h1
    obtain ⟨e1, e2⟩ := idx_inj hj hm h1'
    rw [tm_pred hm] at h2
    obtain ⟨e3, e4⟩ := idx_inj hq (by omega : m-1 < m) h2
    exact ⟨e2, by omega, e4⟩
  · rintro ⟨hj0, hpi, hqm⟩
    refine ⟨i, hi, ?_, ?_⟩
    · rw [hj0, add_zero]
    · rw [hpi, hqm, tm_pred hm]

theorem lr_cond2 {m i j p q : ℕ} (hi : i < m) (hj : j < m) (hq : q < m) :
    (∃ t, t < m ∧ i*m+j = (t+1)*m - 1 ∧ p*m+q = t*m) ↔ (j = m-1 ∧ p = i ∧ q = 0) := by
  have hm : 0 < m := lt_of_le_of_lt (Nat.zero_le j) hj
  constructor
  · rintro ⟨t, ht, h1, h2⟩
    rw [tm_pred hm] at h1
    obtain ⟨e1, e2⟩ := idx_inj hj (by omega : m-1 < m) h1
    have h2' : p*m + q = t*m + 0 := by rw [add_zero]; exact h2
    obtain ⟨e3, e4⟩ := idx_inj hq hm h2'
    exact ⟨e2, by omega, e4⟩
  · rintro ⟨hjm, hpi, hq0⟩
    refine ⟨i, hi, ?_, ?_⟩
    · rw [hjm, tm_pred hm]
    · rw [hpi, hq0, add_zero]

theorem add_lr_bcs_eq (m : ℕ) (A : ℕ → ℕ → ℚ) (n : ℕ) (r c : ℕ) :
    add_lr_bcs m A n r c =
      if (∃ t, t < n ∧ r = t*m ∧ c = (t+1)*m - 1) ∨ (∃ t, t < n ∧ r = (t+1)*m - 1 ∧ c = t*m)
      then 1 else A r c := by
  induction n with
  | zero => simp [add_lr_bcs]
  | succ n ih =>
    show (lil_set (lil_set (add_lr_bcs m A n) (n*m) ((n+1)*m - 1) 1) ((n+1)*m - 1) (n*m) 1) r c = _
    unfold lil_set
    rw [ih]
    by_cases h2 : r = (n+1)*m - 1 ∧ c = n*m
    · rw [if_pos h2, if_pos (Or.inr ⟨n, Nat.lt_succ_self n, h2.1, h2.2⟩)]
    · rw [if_neg h2]
      by_cases h1 : r = n*m ∧ c = (n+1)*m - 1
      · rw [if_pos h1, if_pos (Or.inl ⟨n, Nat.lt_succ_self n, h1.1, h1.2⟩)]
      · rw [if_neg h1]
        refine if_congr ?_ rfl rfl
        constructor
        · rintro (⟨t, ht, e1, e2⟩ | ⟨t, ht, e1, e2⟩)
          · exact Or.inl ⟨t, Nat.lt_succ_of_lt ht, e1, e2⟩
          · exact Or.inr ⟨t, Nat.lt_succ_of_lt ht, e1, e2⟩
        · rintro (⟨t, ht, e1, e2⟩ | ⟨t, ht, e1, e2⟩)
          · rcases Nat.lt_succ_iff_lt_or_eq.mp ht with h | rfl
            · exact Or.inl ⟨t, h, e1, e2⟩
            · exact absurd ⟨e1, e2⟩ h1
          · rcases Nat.lt_succ_iff_lt_or_eq.mp ht with h | rfl
            · exact Or.inr ⟨t, h, e1, e2⟩
            · exact absurd ⟨e1, e2⟩ h2

theorem A_periodic_grid {m i j p q : ℕ} (hm : 2 ≤ m)
    (hi : i < m) (hj : j < m) (hp : p < m) (hq : q < m) :
    A_periodic m (i*m+j) (p*m+q) =
      (if j = 0 ∧ p = i ∧ q = m-1 then (1:ℚ) else 0)
    + (if j = m-1 ∧ p = i ∧ q = 0 then 1 else 0)
    + (if p + (m-1) = i ∧ q = j then 1 else 0)
    + (if i + (m-1) = p ∧ q = j then 1 else 0) := by
  unfold A_periodic
  rw [add_lr_bcs_eq]
  rw [if_congr (or_congr (lr_cond1 hi hj hq) (lr_cond2 hi hj hq)) rfl rfl]
  rw [A_periodic_bands_grid hj hq]
  by_cases hE1 : j = 0 ∧ p = i ∧ q = m-1
  · obtain ⟨f1, f2, f3⟩ := hE1
    rw [if_pos (Or.inl ⟨f1, f2, f3⟩), if_pos (show j = 0 ∧ p = i ∧ q = m-1 from ⟨f1, f2, f3⟩),
      if_neg (show ¬(j = m-1 ∧ p = i ∧ q = 0) by omega),
      if_neg (show ¬(p + (m-1) = i ∧ q = j) by omega),
      if_neg (show ¬(i + (m-1) = p ∧ q = j) by omega)]
    norm_num
  · by_cases hE2 : j = m-1 ∧ p = i ∧ q = 0
    · obtain ⟨f1, f2, f3⟩ := hE2
      rw [if_pos (Or.inr ⟨f1, f2, f3⟩), if_neg hE1,
        if_pos (show j = m-1 ∧ p = i ∧ q = 0 from ⟨f1, f2, f3⟩),
        if_neg (show ¬(p + (m-1) = i ∧ q = j) by omega),
        if_neg (show ¬(i + (m-1) = p ∧ q = j) by omega)]
      norm_num
    · rw [if_neg (not_or.mpr ⟨hE1, hE2⟩), if_neg hE1, if_neg hE2]
      ring

/- ===================== Merged stencil characterization ===================== -/

theorem vert_merge {m i j p q : ℕ} (hm : 2 ≤ m) (hi : i < m) (hp : p < m) :
    (if p+1 = i ∧ q = j then (1:ℚ) else 0) + (if p = i+1 ∧ q = j then 1 else 0)
  + (if p + (m-1) = i ∧ q = j then 1 else 0) + (if i + (m-1) = p ∧ q = j then 1 else 0)
    = (if p = (i+m-1) % m ∧ q = j then 1 else 0) + (if p = (i+1) % m ∧ q = j then 1 else 0) := by
  by_cases hqj : q = j
  · subst hqj
    by_cases hi0 : i = 0
    · subst hi0
      rw [show ((0+m-1) % m) = m-1 from by rw [Nat.zero_add]; exact Nat.mod_eq_of_lt (by omega),
        show ((0+1) % m) = 1 from by rw [Nat.zero_add]; exact Nat.mod_eq_of_lt (by omega)]
      split_ifs <;> first | (exfalso; omega) | tauto | norm_num
    · by_cases hiM : i+1 = m
      · rw [show ((i+m-1) % m) = m-2 from by
            rw [show i+m-1 = (m-2)+1*m from by omega, Nat.add_mul_mod_self_right]
            exact Nat.mod_eq_of_lt (by omega),
          show ((i+1) % m) = 0 from by rw [hiM]; exact Nat.mod_self m]
        split_ifs <;> first | (exfalso; omega) | tauto | norm_num
      · rw [show ((i+m-1) % m) = i-1 from by
            rw [show i+m-1 = (i-1)+1*m from by omega, Nat.add_mul_mod_self_right]
            exact Nat.mod_eq_of_lt (by omega),
          show ((i+1) % m) = i+1 from Nat.mod_eq_of_lt (by omega)]
        split_ifs <;> first | (exfalso; omega) | tauto | norm_num
  · rw [if_neg (fun h => hqj h.2), if_neg (fun h => hqj h.2), if_neg (fun h => hqj h.2),
      if_neg (fun h => hqj h.2), if_neg (fun h => hqj h.2), if_neg (fun h => hqj h.2)]
    norm_num

theorem horiz_merge {m i j p q : ℕ} (hm : 2 ≤ m) (hj : j < m) (hq : q < m) :
    (if p = i ∧ j = q+1 then (1:ℚ) else 0) + (if p = i ∧ q = j+1 then 1 else 0)
  + (if j = 0 ∧ p = i ∧ q = m-1 then 1 else 0) + (if j = m-1 ∧ p = i ∧ q = 0 then 1 else 0)
    = (if p = i ∧ q = (j+m-1) % m then 1 else 0) + (if p = i ∧ q = (j+1) % m then 1 else 0) := by
  by_cases hpi : p = i
  · subst hpi
    by_cases hj0 : j = 0
    · subst hj0
      rw [show ((0+m-1) % m) = m-1 from by rw [Nat.zero_add]; exact Nat.mod_eq_of_lt (by omega),
        show ((0+1) % m) = 1 from by rw [Nat.zero_add]; exact Nat.mod_eq_of_lt (by omega)]
      split_ifs <;> first | (exfalso; omega) | tauto | norm_num
    · by_cases hjM : j+1 = m
      · rw [show ((j+m-1) % m) = m-2 from by
            rw [show j+m-1 = (m-2)+1*m from by omega, Nat.add_mul_mod_self_right]
            exact Nat.mod_eq_of_lt (by omega),
          show ((j+1) % m) = 0 from by rw [hjM]; exact Nat.mod_self m]
        split_ifs <;> first | (exfalso; omega) | tauto | norm_num
      · rw [show ((j+m-1) % m) = j-1 from by
            rw [show j+m-1 = (j-1)+1*m from by omega, Nat.add_mul_mod_self_right]
            exact Nat.mod_eq_of_lt (by omega),
          show ((j+1) % m) = j+1 from Nat.mod_eq_of_lt (by omega)]
        split_ifs <;> first | (exfalso; omega) | tauto | norm_num
  · rw [if_neg (fun h => hpi h.1), if_neg (fun h => hpi h.1), if_neg (fun h => hpi h.2.1),
      if_neg (fun h => hpi h.2.1), if_neg (fun h => hpi h.1), if_neg (fun h => hpi h.1)]
    norm_num

theorem entry_char {m i j p q : ℕ} (hm : 2 ≤ m)
    (hi : i < m) (hj : j < m) (hp : p < m) (hq : q < m) :
    A_banded m (i*m+j) (p*m+q) + A_periodic m (i*m+j) (p*m+q) =
      ((if p = (i+m-1) % m ∧ q = j then (1:ℚ) else 0)
       + (if p = (i+1) % m ∧ q = j then 1 else 0))
    + ((if p = i ∧ q = (j+m-1) % m then 1 else 0)
       + (if p = i ∧ q = (j+1) % m then 1 else 0))
    - 4 * (if p = i ∧ q = j then 1 else 0) := by
  rw [A_banded_grid hj hq, A_periodic_grid hm hi hj hp hq]
  rw [show (if p = i ∧ q = j then (-4:ℚ) else 0)
      = -4 * (if p = i ∧ q = j then (1:ℚ) else 0) from by split_ifs <;> norm_num]
  rw [← vert_merge (q := q) (j := j) hm hi hp, ← horiz_merge (p := p) (i := i) hm hj hq]
  ring

theorem five_entry_char {m : ℕ} (a b : ℚ) (hm : 2 ≤ m)
    {i j p q : ℕ} (hi : i < m) (hj : j < m) (hp : p < m) (hq : q < m) :
    five_pt_laplacian_sparse_periodic m a b (i*m+j) (p*m+q) =
      (((if p = (i+m-1) % m ∧ q = j then (1:ℚ) else 0)
       + (if p = (i+1) % m ∧ q = j then 1 else 0))
      + ((if p = i ∧ q = (j+m-1) % m then 1 else 0)
       + (if p = i ∧ q = (j+1) % m then 1 else 0))
      - 4 * (if p = i ∧ q = j then 1 else 0)) / (lap_h m a b)^2 := by
  unfold five_pt_laplacian_sparse_periodic
  rw [if_pos (And.intro (idx_lt hi hj) (idx_lt hp hq)), entry_char hm hi hj hp hq]

/- ===================== Summation machinery ===================== -/

theorem sum_range_chunk (m n : ℕ) (F : ℕ → ℚ) :
    ∑ c in Finset.range (n*m), F c = ∑ p in Finset.range n, ∑ q in Finset.range m, F (p*m+q) := by
  induction n with
  | zero => simp
  | succ n ih =>
    rw [show (n+1)*m = n*m + m from by ring, Finset.sum_range_add, ih, Finset.sum_range_succ]

theorem sum_pin (m : ℕ) (x : ℕ → ℚ) (v : ℚ) {P Q : ℕ} (hP : P < m) (hQ : Q < m) :
    ∑ p in Finset.range m, ∑ q in Finset.range m, (if p = P ∧ q = Q then v else 0) * x (p*m+q)
      = v * x (P*m+Q) := by
  have hrow : ∀ p, (∑ q in Finset.range m, (if p = P ∧ q = Q then v else 0) * x (p*m+q))
      = if p = P then v * x (p*m+Q) else 0 := by
    intro p
    by_cases hp : p = P
    · rw [if_pos hp]
      have h0 : ∀ q ∈ Finset.range m, q ≠ Q →
          (if p = P ∧ q = Q then v else 0) * x (p*m+q) = 0 := by
        intro q _ hne
        rw [if_neg (fun h => hne h.2), zero_mul]
      have h1 : Q ∉ Finset.range m →
          (if p = P ∧ Q = Q then v else 0) * x (p*m+Q) = 0 := by
        intro habs
        exact absurd (Finset.mem_range.mpr hQ) habs
      rw [Finset.sum_eq_single Q h0 h1, if_pos (And.intro hp rfl)]
    · rw [if_neg hp]
      apply Finset.sum_eq_zero
      intro q _
      rw [if_neg (fun h => hp h.1), zero_mul]
  have h0 : ∀ p ∈ Finset.range m, p ≠ P → (if p = P then v * x (p*m+Q) else 0) = 0 :=
    fun p _ hne => if_neg hne
  have h1 : P ∉ Finset.range m → (if P = P then v * x (P*m+Q) else 0) = 0 :=
    fun habs => absurd (Finset.mem_range.mpr hP) habs
  rw [Finset.sum_congr rfl (fun p _ => hrow p), Finset.sum_eq_single P h0 h1, if_pos rfl]

theorem stencil_expand (b1 b2 b3 b4 b5 : Prop) [Decidable b1] [Decidable b2] [Decidable b3]
    [Decidable b4] [Decidable b5] (y : ℚ) :
    (((if b1 then (1:ℚ) else 0) + (if b2 then 1 else 0))
     + ((if b3 then 1 else 0) + (if b4 then 1 else 0))
     - 4 * (if b5 then 1 else 0)) * y
      = (if b1 then (1:ℚ) else 0) * y + (if b2 then 1 else 0) * y
      + (if b3 then 1 else 0) * y + (if b4 then 1 else 0) * y
      - (if b5 then 4 else 0) * y := by
  split_ifs <;> ring

theorem matvec_stencil {m : ℕ} (a b : ℚ) (hm : 2 ≤ m) {i j : ℕ} (hi : i < m) (hj : j < m)
    (x : ℕ → ℚ) :
    matvec m (five_pt_laplacian_sparse_periodic m a b) x (i*m+j) =
      (x (((i+m-1) % m)*m + j) + x (((i+1) % m)*m + j)
       + x (i*m + (j+m-1) % m) + x (i*m + (j+1) % m)
       - 4 * x (i*m+j)) / (lap_h m a b)^2 := by
  have hm0 : 0 < m := by omega
  unfold matvec
  have hstep : ∀ c ∈ Finset.range (m^2),
      five_pt_laplacian_sparse_periodic m a b (i*m+j) c * x c
      = (A_banded m (i*m+j) c + A_periodic m (i*m+j) c) * x c / (lap_h m a b)^2 := by
    intro c hc
    unfold five_pt_laplacian_sparse_periodic
    rw [if_pos (And.intro (idx_lt hi hj) (Finset.mem_range.mp hc)), div_mul_eq_mul_div]
  rw [Finset.sum_congr rfl hstep, ← Finset.sum_div]
  congr 1
  rw [pow_two, sum_range_chunk]
  have hpt : ∀ p ∈ Finset.range m, ∀ q ∈ Finset.range m,
      (A_banded m (i*m+j) (p*m+q) + A_periodic m (i*m+j) (p*m+q)) * x (p*m+q)
      = (if p = (i+m-1) % m ∧ q = j then (1:ℚ) else 0) * x (p*m+q)
      + (if p = (i+1) % m ∧ q = j then 1 else 0) * x (p*m+q)
      + (if p = i ∧ q = (j+m-1) % m then 1 else 0) * x (p*m+q)
      + (if p = i ∧ q = (j+1) % m then 1 else 0) * x (p*m+q)
      - (if p = i ∧ q = j then 4 else 0) * x (p*m+q) := by
    intro p hp q hq
    rw [entry_char hm hi hj (Finset.mem_range.mp hp) (Finset.mem_range.mp hq), stencil_expand]
  rw [Finset.sum_congr rfl (fun p hp => Finset.sum_congr rfl (fun q hq => hpt p hp q hq))]
  simp only [Finset.sum_add_distrib, Finset.sum_sub_distrib]
  rw [sum_pin (P := (i+m-1) % m) (Q := j) m x 1 (Nat.mod_lt _ hm0) hj,
    sum_pin (P := (i+1) % m) (Q := j) m x 1 (Nat.mod_lt _ hm0) hj,
    sum_pin (P := i) (Q := (j+m-1) % m) m x 1 hi (Nat.mod_lt _ hm0),
    sum_pin (P := i) (Q := (j+1) % m) m x 1 hi (Nat.mod_lt _ hm0),
    sum_pin (P := i) (Q := j) m x 4 hi hj]
  ring

/- ===================== Wrapped-neighbor distinctness ===================== -/

theorem mod_pred_ne {m i : ℕ} (hm : 2 ≤ m) (hi : i < m) : (i+m-1) % m ≠ i := by
  by_cases hi0 : i = 0
  · subst hi0
    rw [show ((0+m-1) % m) = m-1 from by rw [Nat.zero_add]; exact Nat.mod_eq_of_lt (by omega)]
    omega
  · rw [show i+m-1 = (i-1)+1*m from by omega, Nat.add_mul_mod_self_right,
      Nat.mod_eq_of_lt (by omega)]
    omega

theorem mod_succ_ne {m i : ℕ} (hm : 2 ≤ m) (hi : i < m) : (i+1) % m ≠ i := by
  by_cases hiM : i+1 = m
  · rw [hiM, Nat.mod_self]; omega
  · rw [Nat.mod_eq_of_lt (by omega)]; omega

theorem mod_pred_ne_succ {m i : ℕ} (hm : 3 ≤ m) (hi : i < m) : (i+m-1) % m ≠ (i+1) % m := by
  by_cases hi0 : i = 0
  · subst hi0
    rw [show ((0+m-1) % m) = m-1 from by rw [Nat.zero_add]; exact Nat.mod_eq_of_lt (by omega),
      show ((0+1) % m) = 1 from by rw [Nat.zero_add]; exact Nat.mod_eq_of_lt (by omega)]
    omega
  · by_cases hiM : i+1 = m
    · rw [show ((i+m-1) % m) = m-2 from by
          rw [show i+m-1 = (m-2)+1*m from by omega, Nat.add_mul_mod_self_right]
          exact Nat.mod_eq_of_lt (by omega),
        hiM, Nat.mod_self]
      omega
    · rw [show ((i+m-1) % m) = i-1 from by
          rw [show i+m-1 = (i-1)+1*m from by omega, Nat.add_mul_mod_self_right]
          exact Nat.mod_eq_of_lt (by omega),
        Nat.mod_eq_of_lt (by omega)]
      omega

/- ===================== Claim theorems (easy group) ===================== -/

/-- C3: every call of one_step fails with an error because its body never
binds the returned names, and therefore the driver loop cannot complete a
single step: any positive number of steps yields the same error. -/
theorem C3_one_step_unimplemented :
    (∀ (u v : ℕ → ℚ) (k : ℚ) (A : ℕ → ℕ → ℚ) (delta D1 D2 : ℚ),
      one_step u v k A delta D1 D2
        = Except.error "NameError: global name u_new is not defined")
  ∧ (∀ (n : ℕ) (s : (ℕ → ℚ) × (ℕ → ℚ)) (k : ℚ) (A : ℕ → ℕ → ℚ) (delta : ℚ),
      pf_loop k A delta (n+1) s
        = Except.error "NameError: global name u_new is not defined") :=
  ⟨fun _ _ _ _ _ _ _ => rfl, fun _ _ _ _ _ => rfl⟩

/-- C4: the driver's step size is h^2/(5 delta) for the explicit scheme and
h/(10 delta) for the IMEX scheme, and the driver takes int(round(T/k))
steps of the loop, with h = (b-a)/m = 2/m on the domain [-1,1]. -/
theorem C4_step_size_policy (h delta T : ℚ) (m : ℕ) (u0 v0 : ℕ → ℚ) :
    step_size h delta = h^2/(5*delta)
  ∧ step_size2 h delta = h/(10*delta)
  ∧ pattern_formation m T delta u0 v0 =
      pf_loop (((1 - (-1))/(m : ℚ))^2/(5*delta))
        (five_pt_laplacian_sparse_periodic m (-1) 1) delta
        (pyRound (T / (((1 - (-1))/(m : ℚ))^2/(5*delta)))).toNat (u0, v0) :=
  ⟨rfl, rfl, rfl⟩

/-- C5 counterexample: at the parameter choice beta = 0 (with the other
parameters 1), evaluating g at the origin raises ZeroDivisionError from the
scalar division alpha*tau1/beta, so it does not return 0 as the claim
demands of every parameter choice. -/
theorem C5_counterexample :
    g_run 1 0 1 1 1 0 0 = Except.error "ZeroDivisionError: float division by zero"
  ∧ g_run 1 0 1 1 1 0 0 ≠ Except.ok 0 := by
  constructor
  · unfold g_run; rw [if_pos rfl]
  · unfold g_run; rw [if_pos rfl]; simp

/-- C5 amended: f(0,0) = 0 for every parameter choice, and g(0,0) = 0 for
every parameter choice with beta nonzero; at beta = 0 the evaluation of g
raises ZeroDivisionError instead of returning 0. -/
theorem C5_reaction_vanishes_at_origin (alpha beta gamma tau1 tau2 : ℚ) :
    f alpha tau1 tau2 0 0 = 0
  ∧ (beta ≠ 0 → g_run alpha beta gamma tau1 tau2 0 0 = Except.ok 0) := by
  constructor
  · simp only [f]; ring
  · intro hbeta
    unfold g_run
    rw [if_neg hbeta]
    congr 1
    simp only [g]; ring

/-- C5 witness: the amended statement at the notebook's parameter set
(alpha, beta, gamma, tau1, tau2) = (0.899, -0.91, -0.899, 0.02, 0.2). -/
theorem C5_witness :
    f (899/1000) (1/50) (1/5) 0 0 = 0
  ∧ ((-91/100 : ℚ) ≠ 0)
  ∧ g_run (899/1000) (-91/100) (-899/1000) (1/50) (1/5) 0 0 = Except.ok 0 := by
  obtain ⟨h1, h2⟩ :=
    C5_reaction_vanishes_at_origin (899/1000) (-91/100) (-899/1000) (1/50) (1/5)
  exact ⟨h1, by norm_num, h2 (by norm_num)⟩

/-- C6: whenever beta is nonzero, the source's factored form of g agrees
with the spec's additive form as an exact function of u and v. -/
theorem C6_g_forms_equivalent (alpha beta gamma tau1 tau2 : ℚ)
    (hbeta : beta ≠ 0) (u v : ℚ) :
    g alpha beta gamma tau1 tau2 u v = g_additive alpha beta gamma tau1 tau2 u v := by
  simp only [g, g_additive]
  field_simp
  ring

/-- C6 witness: the equivalence at the notebook's parameter set
(alpha, beta, gamma, tau1, tau2) = (0.899, -0.91, -0.899, 0.02, 0.2)
and the point (u,v) = (2,3). -/
theorem C6_witness :
    ((-91/100 : ℚ) ≠ 0)
  ∧ g (899/1000) (-91/100) (-899/1000) (1/50) (1/5) 2 3
      = g_additive (899/1000) (-91/100) (-899/1000) (1/50) (1/5) 2 3 :=
  ⟨by norm_num, C6_g_forms_equivalent (899/1000) (-91/100) (-899/1000) (1/50) (1/5) (by norm_num) 2 3⟩

/- ===================== C1: stencil of the built operator ===================== -/

/-- C1 counterexample: for m = 4 on the domain of the notebook, the built
operator applied to the unit impulse at cell (0,0) gives, at the row of
cell (1,0), the value 25/4 and not the value 4 demanded by the claim's
grid spacing h = (b-a)/m; the builder divides by h = (b-a)/(m+1) instead. -/
theorem C1_counterexample :
    matvec 4 (five_pt_laplacian_sparse_periodic 4 (-1) 1) e00 (1*4+0) = 25/4
  ∧ (e00 (((1+4-1) % 4)*4 + 0) + e00 (((1+1) % 4)*4 + 0) + e00 (1*4 + (0+4-1) % 4)
      + e00 (1*4 + (0+1) % 4) - 4 * e00 (1*4+0)) / (((1:ℚ) - (-1))/4)^2 = 4
  ∧ (25/4 : ℚ) ≠ 4 := by
  refine ⟨?_, ?_, by norm_num⟩
  · rw [matvec_stencil (-1) 1 (by norm_num) (by norm_num) (by norm_num) e00]
    norm_num [e00, lap_h]
  · norm_num [e00]

/-- C1 amended: for m at least 2 and a < b, the matrix-vector product of the
built operator with a flattened grid U at the row of cell (i,j) is the
wrapped five-point stencil of U at (i,j) divided by h^2, with grid spacing
h = (b-a)/(m+1) as computed by the source, not (b-a)/m. -/
theorem C1_laplacian_stencil (m : ℕ) (a b : ℚ) (hm : 2 ≤ m) (hab : a < b)
    (U : ℕ → ℕ → ℚ) (i j : ℕ) (hi : i < m) (hj : j < m) :
    matvec m (five_pt_laplacian_sparse_periodic m a b) (flatten m U) (i*m+j)
      = (U ((i+m-1) % m) j + U ((i+1) % m) j + U i ((j+m-1) % m) + U i ((j+1) % m)
         - 4 * U i j) / ((b - a)/((m:ℚ)+1))^2 := by
  have hm0 : 0 < m := by omega
  rw [matvec_stencil a b hm hi hj]
  unfold lap_h
  rw [flatten_idx hj U, flatten_idx hj U, flatten_idx hj U,
    flatten_idx (Nat.mod_lt _ hm0) U, flatten_idx (Nat.mod_lt _ hm0) U]

/-- C1 witness: the amended stencil identity instantiated at m = 2 on [0,1]
with the grid U(p,q) = 2p+3q at cell (0,1). -/
theorem C1_witness :
    (2 ≤ 2) ∧ ((0:ℚ) < 1)
  ∧ matvec 2 (five_pt_laplacian_sparse_periodic 2 0 1)
      (flatten 2 (fun p q => (2*(p:ℚ) + 3*(q:ℚ)))) (0*2+1) = -18 := by
  refine ⟨le_refl 2, by norm_num, ?_⟩
  rw [C1_laplacian_stencil 2 0 1 (le_refl 2) (by norm_num)
    (fun p q => (2*(p:ℚ) + 3*(q:ℚ))) 0 1 (by norm_num) (by norm_num)]
  norm_num

/- ===================== C2: row structure of the operator ===================== -/

/-- C2 counterexample: at m = 2 (which the claim includes), row 0 of the
built operator has exactly 3 nonzero entries, not 5, because the two
horizontal neighbors coincide and so do the two vertical ones. -/
theorem C2_counterexample :
    ((Finset.range (2^2)).filter
      (fun c => five_pt_laplacian_sparse_periodic 2 (-1) 1 0 c ≠ 0)).card = 3
  ∧ (3:ℕ) ≠ 5 := by
  have v0 : five_pt_laplacian_sparse_periodic 2 (-1) 1 0 0 = -9 := by
    show five_pt_laplacian_sparse_periodic 2 (-1) 1 (0*2+0) (0*2+0) = -9
    rw [five_entry_char (-1) 1 (by norm_num) (by norm_num) (by norm_num) (by norm_num)
      (by norm_num)]
    norm_num [lap_h]
  have v1 : five_pt_laplacian_sparse_periodic 2 (-1) 1 0 1 = 9/2 := by
    show five_pt_laplacian_sparse_periodic 2 (-1) 1 (0*2+0) (0*2+1) = 9/2
    rw [five_entry_char (-1) 1 (by norm_num) (by norm_num) (by norm_num) (by norm_num)
      (by norm_num)]
    norm_num [lap_h]
  have v2 : five_pt_laplacian_sparse_periodic 2 (-1) 1 0 2 = 9/2 := by
    show five_pt_laplacian_sparse_periodic 2 (-1) 1 (0*2+0) (1*2+0) = 9/2
    rw [five_entry_char (-1) 1 (by norm_num) (by norm_num) (by norm_num) (by norm_num)
      (by norm_num)]
    norm_num [lap_h]
  have v3 : five_pt_laplacian_sparse_periodic 2 (-1) 1 0 3 = 0 := by
    show five_pt_laplacian_sparse_periodic 2 (-1) 1 (0*2+0) (1*2+1) = 0
    rw [five_entry_char (-1) 1 (by norm_num) (by norm_num) (by norm_num) (by norm_num)
      (by norm_num)]
    norm_num [lap_h]
  refine ⟨?_, by norm_num⟩
  show ((Finset.range 4).filter
    (fun c => five_pt_laplacian_sparse_periodic 2 (-1) 1 0 c ≠ 0)).card = 3
  rw [Finset.card_filter]
  rw [Finset.sum_range_succ, Finset.sum_range_succ, Finset.sum_range_succ,
    Finset.sum_range_succ, Finset.sum_range_zero]
  rw [v0, v1, v2, v3]
  norm_num

/-- C2 amended: for m at least 3 every row of the built operator has exactly
5 nonzero entries (for m = 2 neighbor columns merge), and for every m at
least 2 each row sums to 0, so the operator maps every constant grid to the
zero vector. -/
theorem C2_row_structure (m : ℕ) (a b : ℚ) (hm : 2 ≤ m) (hab : a < b)
    (r : ℕ) (hr : r < m^2) (K : ℚ) :
    (3 ≤ m → ((Finset.range (m^2)).filter
        (fun c => five_pt_laplacian_sparse_periodic m a b r c ≠ 0)).card = 5)
  ∧ ∑ c in Finset.range (m^2), five_pt_laplacian_sparse_periodic m a b r c = 0
  ∧ matvec m (five_pt_laplacian_sparse_periodic m a b) (fun _ => K) r = 0 := by
  have hm0 : 0 < m := by omega
  obtain ⟨hr1, hr2, hr3⟩ := sq_split hr
  obtain ⟨i, j, hi, hj, rfl⟩ : ∃ i j, i < m ∧ j < m ∧ r = i*m+j :=
    ⟨r/m, r%m, hr1, hr2, hr3.symm⟩
  have hh : lap_h m a b ≠ 0 := by
    unfold lap_h
    apply div_ne_zero (sub_ne_zero.mpr (ne_of_gt hab))
    have : (0:ℚ) < (m:ℚ)+1 := by positivity
    exact ne_of_gt this
  have hh2 : (lap_h m a b)^2 ≠ 0 := pow_ne_zero 2 hh
  refine ⟨?_, ?_, ?_⟩
  · intro hm3
    have hup : (i+m-1) % m < m := Nat.mod_lt _ hm0
    have hdn : (i+1) % m < m := Nat.mod_lt _ hm0
    have hlf : (j+m-1) % m < m := Nat.mod_lt _ hm0
    have hrt : (j+1) % m < m := Nat.mod_lt _ hm0
    have d12 : ((i+m-1) % m)*m + j ≠ ((i+1) % m)*m + j :=
      fun h => mod_pred_ne_succ hm3 hi (idx_inj hj hj h).1
    have d13 : ((i+m-1) % m)*m + j ≠ i*m + (j+m-1) % m :=
      fun h => mod_pred_ne hm hi (idx_inj hj hlf h).1
    have d14 : ((i+m-1) % m)*m + j ≠ i*m + (j+1) % m :=
      fun h => mod_pred_ne hm hi (idx_inj hj hrt h).1
    have d15 : ((i+m-1) % m)*m + j ≠ i*m + j :=
      fun h => mod_pred_ne hm hi (idx_inj hj hj h).1
    have d23 : ((i+1) % m)*m + j ≠ i*m + (j+m-1) % m :=
      fun h => mod_succ_ne hm hi (idx_inj hj hlf h).1
    have d24 : ((i+1) % m)*m + j ≠ i*m + (j+1) % m :=
      fun h => mod_succ_ne hm hi (idx_inj hj hrt h).1
    have d25 : ((i+1) % m)*m + j ≠ i*m + j :=
      fun h => mod_succ_ne hm hi (idx_inj hj hj h).1
    have d34 : i*m + (j+m-1) % m ≠ i*m + (j+1) % m :=
      fun h => mod_pred_ne_succ hm3 hj (idx_inj hlf hrt h).2
    have d35 : i*m + (j+m-1) % m ≠ i*m + j :=
      fun h => mod_pred_ne hm hj (idx_inj hlf hj h).2
    have d45 : i*m + (j+1) % m ≠ i*m + j :=
      fun h => mod_succ_ne hm hj (idx_inj hrt hj h).2
    have hset : ((Finset.range (m^2)).filter
        (fun c => five_pt_laplacian_sparse_periodic m a b (i*m+j) c ≠ 0))
        = {((i+m-1) % m)*m + j, ((i+1) % m)*m + j,
           i*m + (j+m-1) % m, i*m + (j+1) % m, i*m + j} := by
      apply Finset.ext
      intro c
      simp only [Finset.mem_filter, Finset.mem_range, Finset.mem_insert, Finset.mem_singleton]
      constructor
      · rintro ⟨hc, hne⟩
        obtain ⟨hc1, hc2, hc3⟩ := sq_split hc
        obtain ⟨p, q, hp, hq, rfl⟩ : ∃ p q, p < m ∧ q < m ∧ c = p*m+q :=
          ⟨c/m, c%m, hc1, hc2, hc3.symm⟩
        by_contra hnot
        push_neg at hnot
        obtain ⟨n1, n2, n3, n4, n5⟩ := hnot
        apply hne
        rw [five_entry_char a b hm hi hj hp hq,
          if_neg (fun hcd => n1 (by rw [hcd.1, hcd.2])),
          if_neg (fun hcd => n2 (by rw [hcd.1, hcd.2])),
          if_neg (fun hcd => n3 (by rw [hcd.1, hcd.2])),
          if_neg (fun hcd => n4 (by rw [hcd.1, hcd.2])),
          if_neg (fun hcd => n5 (by rw [hcd.1, hcd.2]))]
        norm_num
      · intro hc5
        rcases hc5 with h | h | h | h | h <;> subst h
        · refine ⟨idx_lt hup hj, ?_⟩
          rw [five_entry_char a b hm hi hj hup hj,
            if_pos (And.intro rfl rfl),
            if_neg (fun hcd => mod_pred_ne_succ hm3 hi hcd.1),
            if_neg (fun hcd => mod_pred_ne hm hi hcd.1),
            if_neg (fun hcd => mod_pred_ne hm hi hcd.1),
            if_neg (fun hcd => mod_pred_ne hm hi hcd.1)]
          exact div_ne_zero (by norm_num) hh2
        · refine ⟨idx_lt hdn hj, ?_⟩
          rw [five_entry_char a b hm hi hj hdn hj,
            if_neg (fun hcd => mod_pred_ne_succ hm3 hi hcd.1.symm),
            if_pos (And.intro rfl rfl),
            if_neg (fun hcd => mod_succ_ne hm hi hcd.1),
            if_neg (fun hcd => mod_succ_ne hm hi hcd.1),
            if_neg (fun hcd => mod_succ_ne hm hi hcd.1)]
          exact div_ne_zero (by norm_num) hh2
        · refine ⟨idx_lt hi hlf, ?_⟩
          rw [five_entry_char a b hm hi hj hi hlf,
            if_neg (fun hcd => mod_pred_ne hm hi hcd.1.symm),
            if_neg (fun hcd => mod_succ_ne hm hi hcd.1.symm),
            if_pos (And.intro rfl rfl),
            if_neg (fun hcd => mod_pred_ne_succ hm3 hj hcd.2),
            if_neg (fun hcd => mod_pred_ne hm hj hcd.2)]
          exact div_ne_zero (by norm_num) hh2
        · refine ⟨idx_lt hi hrt, ?_⟩
          rw [five_entry_char a b hm hi hj hi hrt,
            if_neg (fun hcd => mod_pred_ne hm hi hcd.1.symm),
            if_neg (fun hcd => mod_succ_ne hm hi hcd.1.symm),
            if_neg (fun hcd => mod_pred_ne_succ hm3 hj hcd.2.symm),
            if_pos (And.intro rfl rfl),
            if_neg (fun hcd => mod_succ_ne hm hj hcd.2)]
          exact div_ne_zero (by norm_num) hh2
        · refine ⟨idx_lt hi hj, ?_⟩
          rw [five_entry_char a b hm hi hj hi hj,
            if_neg (fun hcd => mod_pred_ne hm hi hcd.1.symm),
            if_neg (fun hcd => mod_succ_ne hm hi hcd.1.symm),
            if_neg (fun hcd => mod_pred_ne hm hj hcd.2.symm),
            if_neg (fun hcd => mod_succ_ne hm hj hcd.2.symm),
            if_pos (And.intro rfl rfl)]
          exact div_ne_zero (by norm_num) hh2
    rw [hset]
    rw [Finset.card_insert_of_not_mem (by
        simp only [Finset.mem_insert, Finset.mem_singleton]
        push_neg
        exact ⟨d12, d13, d14, d15⟩),
      Finset.card_insert_of_not_mem (by
        simp only [Finset.mem_insert, Finset.mem_singleton]
        push_neg
        exact ⟨d23, d24, d25⟩),
      Finset.card_insert_of_not_mem (by
        simp only [Finset.mem_insert, Finset.mem_singleton]
        push_neg
        exact ⟨d34, d35⟩),
      Finset.card_insert_of_not_mem (by
        simp only [Finset.mem_singleton]
        exact d45),
      Finset.card_singleton]
  · have hcongr : ∑ c in Finset.range (m^2), five_pt_laplacian_sparse_periodic m a b (i*m+j) c
        = matvec m (five_pt_laplacian_sparse_periodic m a b) (fun _ => (1:ℚ)) (i*m+j) := by
      unfold matvec
      apply Finset.sum_congr rfl
      intro c _
      simp
    rw [hcongr, matvec_stencil a b hm hi hj]
    norm_num
  · rw [matvec_stencil a b hm hi hj]
    rw [show (K + K + K + K - 4*K : ℚ) = 0 from by ring, zero_div]

/-- C2 witness: the amended row-structure statement at m = 3, domain [0,1],
row 4 (cell (1,1)) and constant value 7. -/
theorem C2_witness :
    ((3 ≤ 3 → ((Finset.range (3^2)).filter
        (fun c => five_pt_laplacian_sparse_periodic 3 0 1 4 c ≠ 0)).card = 5)
  ∧ ∑ c in Finset.range (3^2), five_pt_laplacian_sparse_periodic 3 0 1 4 c = 0
  ∧ matvec 3 (five_pt_laplacian_sparse_periodic 3 0 1) (fun _ => (7:ℚ)) 4 = 0) :=
  C2_row_structure 3 0 1 (by norm_num) (by norm_num) 4 (by norm_num) 7

/- ===================== C7: symmetry of the operator ===================== -/

/-- C7: for m at least 2 and a < b, the built operator equals its transpose:
every entry (r,c) equals the entry (c,r), including the masked bands and
the explicit periodic wrap corrections. -/
theorem C7_operator_symmetric (m : ℕ) (a b : ℚ) (hm : 2 ≤ m) (hab : a < b) (r c : ℕ) :
    five_pt_laplacian_sparse_periodic m a b r c
      = five_pt_laplacian_sparse_periodic m a b c r := by
  unfold five_pt_laplacian_sparse_periodic
  by_cases hrc : r < m^2 ∧ c < m^2
  · rw [if_pos hrc, if_pos (And.intro hrc.2 hrc.1)]
    obtain ⟨hr1, hr2, hr3⟩ := sq_split hrc.1
    obtain ⟨hc1, hc2, hc3⟩ := sq_split hrc.2
    obtain ⟨i, j, hi, hj, rfl⟩ : ∃ i j, i < m ∧ j < m ∧ r = i*m+j :=
      ⟨r/m, r%m, hr1, hr2, hr3.symm⟩
    obtain ⟨p, q, hp, hq, rfl⟩ : ∃ p q, p < m ∧ q < m ∧ c = p*m+q :=
      ⟨c/m, c%m, hc1, hc2, hc3.symm⟩
    rw [A_banded_grid hj hq, A_banded_grid hq hj,
      A_periodic_grid hm hi hj hp hq, A_periodic_grid hm hp hq hi hj]
    congr 1
    rw [show (if i = p ∧ j = q then (-4:ℚ) else 0) = (if p = i ∧ q = j then (-4:ℚ) else 0) from
        if_congr (by omega) rfl rfl,
      show (if i = p ∧ q = j+1 then (1:ℚ) else 0) = (if p = i ∧ q = j+1 then (1:ℚ) else 0) from
        if_congr (by omega) rfl rfl,
      show (if i = p ∧ j = q+1 then (1:ℚ) else 0) = (if p = i ∧ j = q+1 then (1:ℚ) else 0) from
        if_congr (by omega) rfl rfl,
      show (if i+1 = p ∧ j = q then (1:ℚ) else 0) = (if p = i+1 ∧ q = j then (1:ℚ) else 0) from
        if_congr (by omega) rfl rfl,
      show (if i = p+1 ∧ j = q then (1:ℚ) else 0) = (if p+1 = i ∧ q = j then (1:ℚ) else 0) from
        if_congr (by omega) rfl rfl,
      show (if q = 0 ∧ i = p ∧ j = m-1 then (1:ℚ) else 0)
          = (if j = m-1 ∧ p = i ∧ q = 0 then (1:ℚ) else 0) from
        if_congr (by omega) rfl rfl,
      show (if q = m-1 ∧ i = p ∧ j = 0 then (1:ℚ) else 0)
          = (if j = 0 ∧ p = i ∧ q = m-1 then (1:ℚ) else 0) from
        if_congr (by omega) rfl rfl,
      show (if p + (m-1) = i ∧ j = q then (1:ℚ) else 0)
          = (if p + (m-1) = i ∧ q = j then (1:ℚ) else 0) from
        if_congr (by omega) rfl rfl,
      show (if i + (m-1) = p ∧ j = q then (1:ℚ) else 0)
          = (if i + (m-1) = p ∧ q = j then (1:ℚ) else 0) from
        if_congr (by omega) rfl rfl]
    ring
  · rw [if_neg hrc, if_neg (fun h => hrc (And.intro h.2 h.1))]

/-- C7 witness: symmetry of the operator at m = 4 on [-1,1] at the entry
pair (5,6)/(6,5). -/
theorem C7_witness :
    (2 ≤ 4) ∧ ((-1:ℚ) < 1)
  ∧ five_pt_laplacian_sparse_periodic 4 (-1) 1 5 6
      = five_pt_laplacian_sparse_periodic 4 (-1) 1 6 5 :=
  ⟨by norm_num, by norm_num, C7_operator_symmetric 4 (-1) 1 (by norm_num) (by norm_num) 5 6⟩

/- ===================== C8: impulse response / periodic wrap ===================== -/

/-- C8 counterexample: for m = 4 on [-1,1] the operator applied to the unit
impulse at cell (0,0) is also nonzero at the center cell (0,0) itself,
which is not one of the four periodic neighbors, so the response is not
nonzero exactly at the four neighbor positions. -/
theorem C8_counterexample :
    matvec 4 (five_pt_laplacian_sparse_periodic 4 (-1) 1) e00 0 ≠ 0
  ∧ (0:ℕ) ∉ ({1*4+0, 3*4+0, 0*4+1, 0*4+3} : Finset ℕ) := by
  refine ⟨?_, by decide⟩
  show matvec 4 (five_pt_laplacian_sparse_periodic 4 (-1) 1) e00 (0*4+0) ≠ 0
  rw [matvec_stencil (-1) 1 (by norm_num) (by norm_num) (by norm_num) e00]
  norm_num [e00, lap_h]

/-- C8 amended: for m = 4 on [-1,1] the operator applied to the unit impulse
at cell (0,0) is nonzero exactly at the four periodic neighbors
(1,0), (3,0), (0,1), (0,3) and the center (0,0): the nonzero rows of the
image are exactly the flattened indices 0, 1, 3, 4 and 12. -/
theorem C8_impulse_response :
    ((Finset.range (4^2)).filter
      (fun r => matvec 4 (five_pt_laplacian_sparse_periodic 4 (-1) 1) e00 r ≠ 0))
      = {0, 1, 3, 4, 12} := by
  have hval : ∀ i j : ℕ, i < 4 → j < 4 →
      matvec 4 (five_pt_laplacian_sparse_periodic 4 (-1) 1) e00 (i*4+j)
      = (e00 (((i+4-1) % 4)*4 + j) + e00 (((i+1) % 4)*4 + j)
         + e00 (i*4 + (j+4-1) % 4) + e00 (i*4 + (j+1) % 4)
         - 4 * e00 (i*4+j)) * (25/4) := by
    intro i j hi hj
    rw [matvec_stencil (-1) 1 (by norm_num) hi hj e00,
      show (lap_h 4 (-1) 1) = 2/5 from by norm_num [lap_h]]
    ring
  have h00 := hval 0 0 (by norm_num) (by norm_num)
  have h01 := hval 0 1 (by norm_num) (by norm_num)
  have h02 := hval 0 2 (by norm_num) (by norm_num)
  have h03 := hval 0 3 (by norm_num) (by norm_num)
  have h10 := hval 1 0 (by norm_num) (by norm_num)
  have h11 := hval 1 1 (by norm_num) (by norm_num)
  have h12 := hval 1 2 (by norm_num) (by norm_num)
  have h13 := hval 1 3 (by norm_num) (by norm_num)
  have h20 := hval 2 0 (by norm_num) (by norm_num)
  have h21 := hval 2 1 (by norm_num) (by norm_num)
  have h22 := hval 2 2 (by norm_num) (by norm_num)
  have h23 := hval 2 3 (by norm_num) (by norm_num)
  have h30 := hval 3 0 (by norm_num) (by norm_num)
  have h31 := hval 3 1 (by norm_num) (by norm_num)
  have h32 := hval 3 2 (by norm_num) (by norm_num)
  have h33 := hval 3 3 (by norm_num) (by norm_num)
  norm_num [e00] at h00 h01 h02 h03 h10 h11 h12 h13 h20 h21 h22 h23 h30 h31 h32 h33
  have hs : ∀ r ∈ Finset.range (4^2),
      ((matvec 4 (five_pt_laplacian_sparse_periodic 4 (-1) 1) e00 r ≠ 0)
        ↔ (r = 0 ∨ r = 1 ∨ r = 3 ∨ r = 4 ∨ r = 12)) := by
    intro r hr
    have hr16 : r < 16 := by
      have := Finset.mem_range.mp hr
      norm_num at this
      exact this
    interval_cases r
    · rw [h00]; norm_num
    · rw [h01]; norm_num
    · rw [h02]; norm_num
    · rw [h03]; norm_num
    · rw [h10]; norm_num
    · rw [h11]; norm_num
    · rw [h12]; norm_num
    · rw [h13]; norm_num
    · rw [h20]; norm_num
    · rw [h21]; norm_num
    · rw [h22]; norm_num
    · rw [h23]; norm_num
    · rw [h30]; norm_num
    · rw [h31]; norm_num
    · rw [h32]; norm_num
    · rw [h33]; norm_num
  rw [Finset.filter_congr hs]
  decide

/- ===================== C9: no configuration validation ===================== -/

/-- C9 counterexample: the driver called with the invalid horizon T = -5
(T <= 0) returns successfully without taking a single step, since
N = int(round(T/k)) is negative and range(N) is empty -- a silent no-op
instead of the fast failure with a configuration error that the claim
demands for every invalid configuration. -/
theorem C9_counterexample :
    pattern_formation 10 (-5) (21/10000) (fun _ => 0) (fun _ => 0)
      = Except.ok (fun _ => (0:ℚ), fun _ => (0:ℚ)) := by
  show pf_loop _ _ _ (pyRound ((-5) / step_size ((1 - (-1))/(10:ℚ)) (21/10000))).toNat _ = _
  rw [show (pyRound ((-5) / step_size ((1 - (-1))/(10:ℚ)) (21/10000))) = -1 from by
    norm_num [pyRound, step_size, Int.floor_eq_iff]]
  rfl

/-- C9 amended: the program performs no configuration validation of its
own. The builder does fail for m < 2, but only incidentally, with scipy's
ValueError about duplicate spdiags offsets; for every m >= 2 it returns an
operator for all a, b including a >= b (division by h^2 = 0 warns and
produces non-finite entries, it does not raise). The driver checks nothing:
a run with the invalid horizon T = -5 (T <= 0) completes silently with
zero steps taken rather than raising a configuration error. -/
theorem C9_no_validation (m : ℕ) (a b : ℚ) (u0 v0 : ℕ → ℚ) :
    (m < 2 → five_pt_laplacian_run m a b
        = Except.error "ValueError: offset array contains duplicate values")
  ∧ (2 ≤ m → five_pt_laplacian_run m a b
        = Except.ok (five_pt_laplacian_sparse_periodic m a b))
  ∧ pattern_formation 10 (-5) (21/10000) u0 v0 = Except.ok (u0, v0) := by
  refine ⟨?_, ?_, ?_⟩
  · intro hm
    unfold five_pt_laplacian_run
    rw [if_pos hm]
  · intro hm
    unfold five_pt_laplacian_run
    rw [if_neg (by omega)]
  · show pf_loop _ _ _ (pyRound ((-5) / step_size ((1 - (-1))/(10:ℚ)) (21/10000))).toNat _ = _
    rw [show (pyRound ((-5) / step_size ((1 - (-1))/(10:ℚ)) (21/10000))) = -1 from by
      norm_num [pyRound, step_size, Int.floor_eq_iff]]
    rfl

/-- C9 witness: the amended statement exercised at m = 1 (builder raises
the duplicate-offset ValueError), at m = 4 with a = b = 1 (builder returns
despite a >= b), and at the T = -5 run completing silently. -/
theorem C9_witness :
    ((1:ℕ) < 2 ∧ five_pt_laplacian_run 1 0 1
        = Except.error "ValueError: offset array contains duplicate values")
  ∧ ((2:ℕ) ≤ 4 ∧ five_pt_laplacian_run 4 1 1
        = Except.ok (five_pt_laplacian_sparse_periodic 4 1 1))
  ∧ pattern_formation 10 (-5) (21/10000) (fun _ => (1:ℚ)) (fun _ => (2:ℚ))
      = Except.ok (fun _ => (1:ℚ), fun _ => (2:ℚ)) := by
  refine ⟨⟨by norm_num, (C9_no_validation 1 0 1 (fun _ => 0) (fun _ => 0)).1 (by norm_num)⟩,
    ⟨by norm_num, (C9_no_validation 4 1 1 (fun _ => 0) (fun _ => 0)).2.1 (by norm_num)⟩,
    (C9_no_validation 10 0 0 (fun _ => (1:ℚ)) (fun _ => (2:ℚ))).2.2⟩

end RD
